import Mathlib

/-!
Verification of the section-segmentation core of `get_liturgical_readings`
(`src/backend/app.py`, lines 38–112).

The core consumes a materialized sequence of text lines (the result of the
HTML reducer) and produces an ordered list of `Reading` records.  Every
definition below is a direct shallow embedding of the corresponding Python
construct:

* `pyStrip`   — `str.strip()` (edge whitespace removal);
* `pyLower`   — `str.lower()` (ASCII case folding, as used on the keywords);
* `containsSub` — the Python `in` substring test on strings;
* `hasDigit`  — `any(c.isdigit() for c in s)`;
* `pyTitle`, `underscoreToSpace` — `str.title()` and `str.replace("_", " ")`;
* `keywords`  — the keyword table, in its definition (= insertion) order;
* `detect`    — the inline classifier loop (first matching keyword wins);
* `stepLine`  — one iteration of the `for i, line in enumerate(lines)` loop;
* `flushEnd`  — the "save the very last section" block;
* `get_liturgical_readings` — the whole segmentation core, from fresh local
  state to the ordered output list.

The Python dict `readings_found` is embedded as an association list with
first-match lookup; entries are only ever appended when the key is absent,
which matches dict insertion exactly.
-/

namespace Evangelizacion

/-- Model of Python str.lower(), applied character-wise (ASCII folding). -/
def pyLower (s : String) : String := ⟨s.data.map Char.toLower⟩

/-- Does the haystack start with the needle (character lists)? -/
def listStartsWith : List Char → List Char → Bool
  | [], _ => true
  | _ :: _, [] => false
  | n :: ns, h :: hs => n == h && listStartsWith ns hs

/-- Does the needle occur as a contiguous substring of the haystack? -/
def listContainsSub (needle : List Char) : List Char → Bool
  | [] => needle.isEmpty
  | h :: t => listStartsWith needle (h :: t) || listContainsSub needle t

/-- The Python `needle in hay` substring test on strings. -/
def containsSub (needle hay : String) : Bool :=
  listContainsSub needle.data hay.data

/-- Model of the Python digit test any(c.isdigit() for c in s). -/
def hasDigit (s : String) : Bool := s.data.any Char.isDigit

/-- Strip leading and trailing whitespace from a character list. -/
def stripChars (l : List Char) : List Char :=
  ((l.dropWhile Char.isWhitespace).reverse.dropWhile Char.isWhitespace).reverse

/-- Model of Python str.strip(). -/
def pyStrip (s : String) : String := ⟨stripChars s.data⟩

/-- Character-wise worker for `str.title()`: a letter is upper-cased when the
previous character was not a letter, lower-cased otherwise. -/
def pyTitleChars : Bool → List Char → List Char
  | _, [] => []
  | prevAlpha, c :: cs =>
    (if c.isAlpha then (if prevAlpha then c.toLower else c.toUpper) else c) ::
      pyTitleChars c.isAlpha cs

/-- Model of Python str.title(). -/
def pyTitle (s : String) : String := ⟨pyTitleChars false s.data⟩

/-- Model of Python str.replace("_", " ") (single-character replacement). -/
def underscoreToSpace (s : String) : String :=
  ⟨s.data.map fun c => if c = '_' then ' ' else c⟩

/-- The keyword table `keywords` of `app.py` (lines 38–44), in its
definition order, which is the iteration order of the Python dict. -/
def keywords : List (String × String) :=
  [("Primera Lectura", "first_reading"),
   ("Salmo Responsorial", "psalm"),
   ("Segunda Lectura", "second_reading"),
   ("Evangelio", "gospel")]

/-- The inline classifier loop of `app.py` (lines 59–64): the first keyword in
table order whose lower-cased phrase is a substring of the lower-cased line
wins; no match yields `none`. -/
def detect (line : String) : Option String :=
  (keywords.find? fun kv => containsSub (pyLower kv.1) (pyLower line)).map Prod.snd

/-- One output record of the core (`type`, `title`, `reference`, `text`). -/
structure Reading where
  type : String
  title : String
  reference : String
  text : String
deriving Repr, DecidableEq

/-- First-match association-list lookup, embedding `readings_found[k]` /
`k in readings_found`. -/
def lookupR (k : String) : List (String × Reading) → Option Reading
  | [] => none
  | (k', r) :: rest => if k' = k then some r else lookupR k rest

/-- The local state of the segmentation loop: `buffer`, `current_section`,
`current_ref`, `readings_found`. -/
structure StState where
  buffer : List String
  currentSection : Option String
  currentRef : String
  readingsFound : List (String × Reading)
deriving Repr, DecidableEq

/-- The fresh local state built at every invocation (`app.py` lines 50–53). -/
def initState : StState := ⟨[], none, "", []⟩

/-- Model of the Python join " ".join(buffer). -/
def joinSpace : List String → String
  | [] => ""
  | [s] => s
  | s :: ss => s ++ " " ++ joinSpace ss

/-- The close-and-record step shared by the header-triggered close and the
end-of-input close: record the open section `cs` (with the given title) only
when the buffer is non-empty and `cs` is not yet in `readings_found`. -/
def closeRecord (st : StState) (cs : String) (titleStr : String) :
    List (String × Reading) :=
  if st.buffer = [] then st.readingsFound
  else if (lookupR cs st.readingsFound).isSome then st.readingsFound
  else st.readingsFound ++
    [(cs, ⟨cs, titleStr, st.currentRef, pyStrip (joinSpace st.buffer)⟩)]

/-- The stripped text of line `i` of the materialized sequence (out-of-range
indices give the empty string, which the loop skips anyway). -/
def lineAt (lines : List String) (i : Nat) : String := pyStrip (lines.getD i "")

/-- One iteration of the main loop (`app.py` lines 55–94) on line index `i` of
the materialized sequence `lines`.  The line is stripped; empty lines are
skipped; a header line closes any open section (titling it with the *new*
header text), opens the detected section and performs the one-line digit
lookahead for the reference; a body line is buffered unless it equals the
current reference. -/
def stepLine (lines : List String) (st : StState) (i : Nat) : StState :=
  let line := lineAt lines i
  if line = "" then st
  else
    match detect line with
    | some t =>
      let found :=
        match st.currentSection with
        | some cs => closeRecord st cs line
        | none => st.readingsFound
      let newRef :=
        if i + 1 < lines.length then
          let nextLine := lineAt lines (i + 1)
          if hasDigit nextLine then nextLine else ""
        else ""
      { buffer := [], currentSection := some t, currentRef := newRef,
        readingsFound := found }
    | none =>
      match st.currentSection with
      | some _ =>
        if line = st.currentRef then st
        else { st with buffer := st.buffer ++ [line] }
      | none => st

/-- The "save the very last section" block (`app.py` lines 96–105): the title
used on this path is the title-cased section type name. -/
def flushEnd (st : StState) : StState :=
  match st.currentSection with
  | some cs =>
    { st with readingsFound := closeRecord st cs (pyTitle (underscoreToSpace cs)) }
  | none => st

/-- The canonical output order `ordered_keys` (`app.py` line 108). -/
def orderedKeys : List String :=
  ["first_reading", "psalm", "second_reading", "gospel"]

/-- The loop state after the whole pass over `lines`, before the final flush. -/
def coreState (lines : List String) : StState :=
  (List.range lines.length).foldl (stepLine lines) initState

/-- The segmentation core of `get_liturgical_readings` (`app.py` lines
50–112): run the loop from fresh local state, flush the last open section, and
emit the recorded readings in canonical order. -/
def get_liturgical_readings (lines : List String) : List Reading :=
  orderedKeys.filterMap fun k => lookupR k (flushEnd (coreState lines)).readingsFound

/-- The concrete input line sequence of the spec's concrete scenario. -/
def scenarioLines : List String :=
  ["Intro boilerplate", "Primera Lectura", "Is 25, 6-10",
   "Texto de la primera lectura.", "Salmo Responsorial", "Sal 22",
   "Texto del salmo.", "Evangelio", "Mt 5, 1-12", "Texto del evangelio."]

/-! Helper lemmas -/

/-- Appending entries on the right does not disturb an existing lookup. -/
theorem lookupR_append_left {k : String} {l : List (String × Reading)}
    (l' : List (String × Reading)) (h : (lookupR k l).isSome) :
    lookupR k (l ++ l') = lookupR k l := by
  induction l with
  | nil => simp [lookupR] at h
  | cons p rest ih =>
    obtain ⟨k', r⟩ := p
    by_cases hk : k' = k
    · simp [lookupR, hk]
    · simp only [lookupR, if_neg hk, List.cons_append] at h ⊢
      exact ih h

/-- Lookup in an append when the key is absent on the left. -/
theorem lookupR_append_right {k : String} {l : List (String × Reading)}
    (l' : List (String × Reading)) (h : lookupR k l = none) :
    lookupR k (l ++ l') = lookupR k l' := by
  induction l with
  | nil => simp
  | cons p rest ih =>
    obtain ⟨k', r⟩ := p
    by_cases hk : k' = k
    · simp [lookupR, hk] at h
    · simp only [lookupR, if_neg hk, List.cons_append] at h ⊢
      exact ih h

/-- Invariant preservation through the loop fold. -/
theorem foldl_inv_mem {P : StState → Prop} (lines : List String) (L : List Nat)
    (st : StState) (h0 : P st)
    (hstep : ∀ st i, i ∈ L → P st → P (stepLine lines st i)) :
    P (L.foldl (stepLine lines) st) := by
  induction L generalizing st with
  | nil => exact h0
  | cons a L ih =>
    exact ih (stepLine lines st a) (hstep st a (List.mem_cons_self a L) h0)
      fun st' i hi => hstep st' i (List.mem_cons_of_mem a hi)

/-- Every recorded entry's `type` field equals its key in `readings_found`. -/
def TypesOk (m : List (String × Reading)) : Prop := ∀ p ∈ m, p.2.type = p.1

theorem typesOk_closeRecord {st : StState} (cs titleStr : String)
    (h : TypesOk st.readingsFound) : TypesOk (closeRecord st cs titleStr) := by
  unfold closeRecord
  split
  · exact h
  · split
    · exact h
    · intro p hp
      rcases List.mem_append.1 hp with h1 | h2
      · exact h p h1
      · simp only [List.mem_singleton] at h2
        subst h2
        rfl

theorem typesOk_stepLine (lines : List String) (st : StState) (i : Nat)
    (h : TypesOk st.readingsFound) : TypesOk (stepLine lines st i).readingsFound := by
  unfold stepLine
  dsimp only
  split
  · exact h
  · split
    · dsimp only
      split
      · exact typesOk_closeRecord _ _ h
      · exact h
    · split
      · split
        · exact h
        · exact h
      · exact h

theorem typesOk_flushEnd (st : StState) (h : TypesOk st.readingsFound) :
    TypesOk (flushEnd st).readingsFound := by
  unfold flushEnd
  split
  · exact typesOk_closeRecord _ _ h
  · exact h

theorem typesOk_core (lines : List String) :
    TypesOk (flushEnd (coreState lines)).readingsFound := by
  refine typesOk_flushEnd _ ?_
  exact foldl_inv_mem lines _ initState (by intro p hp; simp [initState] at hp)
    fun st i _ hst => typesOk_stepLine lines st i hst

/-- A successful lookup in a `TypesOk` map returns a reading typed by its key. -/
theorem lookupR_type {k : String} {m : List (String × Reading)} (h : TypesOk m)
    {r : Reading} (hl : lookupR k m = some r) : r.type = k := by
  induction m with
  | nil => simp [lookupR] at hl
  | cons p rest ih =>
    obtain ⟨k', r'⟩ := p
    by_cases hk : k' = k
    · rw [lookupR, if_pos hk] at hl
      obtain rfl := Option.some.inj hl
      have := h (k', r') (List.mem_cons_self _ _)
      simpa [hk] using this
    · rw [lookupR, if_neg hk] at hl
      exact ih (fun p hp => h p (List.mem_cons_of_mem _ hp)) hl

/-- The types of the looked-up readings form a sublist of the key list. -/
theorem map_type_filterMap_sublist {m : List (String × Reading)} (h : TypesOk m) :
    ∀ L : List String,
      ((L.filterMap fun k => lookupR k m).map Reading.type).Sublist L := by
  intro L
  induction L with
  | nil => simp
  | cons k L ih =>
    rw [List.filterMap_cons]
    cases hl : lookupR k m with
    | none => exact ih.cons k
    | some r =>
      rw [List.map_cons, lookupR_type h hl]
      exact ih.cons₂ k

/-! Claims -/

/-- C1: for every input line sequence the output has length at most 4,
contains no two readings of the same type, and its types appear as a
subsequence of the fixed order [first_reading, psalm, second_reading,
gospel], regardless of the order of header lines in the input. -/
theorem C1_output_shape (lines : List String) :
    (get_liturgical_readings lines).length ≤ 4 ∧
    ((get_liturgical_readings lines).map Reading.type).Nodup ∧
    ((get_liturgical_readings lines).map Reading.type).Sublist orderedKeys := by
  have h := map_type_filterMap_sublist (typesOk_core lines) orderedKeys
  have hout : ((get_liturgical_readings lines).map Reading.type).Sublist orderedKeys := h
  refine ⟨?_, hout.nodup (by decide), hout⟩
  have hlen := hout.length_le
  simpa [orderedKeys] using hlen

/-- C5 counterexample: on the spec's concrete scenario input the core does
not return 3 readings — the body lines "Texto de la primera lectura." and
"Texto del evangelio." themselves contain the keyword phrases
"Primera Lectura" / "Evangelio" case-insensitively, are classified as
headers, and reset the buffers, so only the psalm survives. -/
theorem C5_counterexample : (get_liturgical_readings scenarioLines).length ≠ 3 := by
  decide

/-- C5 (amended): on the concrete scenario input the core returns exactly one
Reading — the psalm, titled "Evangelio" (the next header), with reference
"Sal 22" and text "Texto del salmo.". -/
theorem C5_amended_scenario :
    get_liturgical_readings scenarioLines =
      [⟨"psalm", "Evangelio", "Sal 22", "Texto del salmo."⟩] := by
  decide

/-- A line that strips to empty or classifies as `none` while no section is
open leaves the loop state unchanged. -/
theorem stepLine_no_header (lines : List String) (st : StState) (i : Nat)
    (hsec : st.currentSection = none)
    (hdet : detect (lineAt lines i) = none) :
    stepLine lines st i = st := by
  unfold stepLine
  dsimp only
  split
  · rfl
  · rw [hdet, hsec]

/-- C7: the core is total — it is a function returning a plain list — and
degrades gracefully: the empty input yields the empty output, and any input in
which no (stripped) line matches a keyword yields the empty output. -/
theorem C7_total_keyword_free (lines : List String)
    (h : ∀ l ∈ lines, detect (pyStrip l) = none) :
    get_liturgical_readings lines = [] ∧ get_liturgical_readings [] = [] := by
  constructor
  · have hcore : coreState lines = initState := by
      unfold coreState
      refine foldl_inv_mem (P := fun st => st = initState) lines _ initState rfl ?_
      intro st i hi hst
      subst hst
      have hilt : i < lines.length := List.mem_range.mp hi
      have hmem : lines.getD i "" ∈ lines := by
        rw [List.getD_eq_getElem _ _ hilt]
        exact List.getElem_mem hilt
      exact stepLine_no_header lines initState i rfl (h _ hmem)
    unfold get_liturgical_readings
    rw [hcore]
    decide
  · decide

/-- Witness for C7 at a concrete keyword-free input. -/
theorem C7_witness :
    get_liturgical_readings ["hello", "world 42"] = [] ∧
    get_liturgical_readings [] = [] :=
  C7_total_keyword_free ["hello", "world 42"] (by decide)

/-- The local-variable initialization of `app.py` lines 50–53, applied to
whatever residual state a hypothetical earlier invocation might have left:
every field is overwritten before use. -/
def initLocals (residual : StState) : StState :=
  { residual with
    buffer := [],
    currentSection := none,
    currentRef := "",
    readingsFound := [] }

/-- One invocation of the core starting from an arbitrary residual state,
which the initialization statements immediately overwrite. -/
def invokeWith (residual : StState) (lines : List String) : List Reading :=
  orderedKeys.filterMap fun k =>
    lookupR k (flushEnd ((List.range lines.length).foldl (stepLine lines)
      (initLocals residual))).readingsFound

/-- C8: the core is deterministic with no hidden mutable state — an
invocation's output is independent of any residual state because every local
is freshly initialized, so two runs on the same line sequence (in particular,
a second run after a first) yield identical outputs. -/
theorem C8_deterministic (residual₁ residual₂ : StState) (lines : List String) :
    invokeWith residual₁ lines = invokeWith residual₂ lines ∧
    invokeWith residual₁ lines = get_liturgical_readings lines :=
  ⟨rfl, rfl⟩

/-- A string containing a digit character is non-empty. -/
theorem hasDigit_ne_empty {s : String} (h : hasDigit s = true) : s ≠ "" := by
  intro he
  subst he
  exact absurd h (by decide)

/-- C2: title assignment has exactly two paths.  When a new header line
closes an open section with a non-empty buffer, the recorded title is the
*new* (triggering) header line's text; when the last open section is closed
at end-of-input, the title is the title-cased rendering of the section type
name (e.g. "Gospel" for gospel), not a header line. -/
theorem C2_title_paths (lines : List String) (i : Nat) (st st' : StState)
    (cs cs' t : String) :
    (lineAt lines i ≠ "" →
      detect (lineAt lines i) = some t →
      st.currentSection = some cs →
      st.buffer ≠ [] →
      lookupR cs st.readingsFound = none →
      (stepLine lines st i).readingsFound =
        st.readingsFound ++
          [(cs, ⟨cs, lineAt lines i, st.currentRef,
            pyStrip (joinSpace st.buffer)⟩)]) ∧
    (st'.currentSection = some cs' →
      st'.buffer ≠ [] →
      lookupR cs' st'.readingsFound = none →
      (flushEnd st').readingsFound =
        st'.readingsFound ++
          [(cs', ⟨cs', pyTitle (underscoreToSpace cs'), st'.currentRef,
            pyStrip (joinSpace st'.buffer)⟩)]) ∧
    pyTitle (underscoreToSpace "gospel") = "Gospel" := by
  refine ⟨?_, ?_, by decide⟩
  · intro hne hdet hsec hbuf hlook
    simp [stepLine, closeRecord, hne, hdet, hsec, hbuf, hlook]
  · intro hsec hbuf hlook
    simp [flushEnd, closeRecord, hsec, hbuf, hlook]

/-- Witness for C2: a header-triggered close titled by the *new* header, and
an end-of-input close titled by the title-cased type name. -/
theorem C2_witness :
    (stepLine ["Salmo Responsorial"]
        ⟨["cuerpo"], some "first_reading", "Is 25, 6-10", []⟩ 0).readingsFound =
      [("first_reading",
        ⟨"first_reading", "Salmo Responsorial", "Is 25, 6-10", "cuerpo"⟩)] ∧
    (flushEnd ⟨["texto"], some "gospel", "Mt 5, 1-12", []⟩).readingsFound =
      [("gospel", ⟨"gospel", "Gospel", "Mt 5, 1-12", "texto"⟩)] := by
  have h := C2_title_paths ["Salmo Responsorial"] 0
    ⟨["cuerpo"], some "first_reading", "Is 25, 6-10", []⟩
    ⟨["texto"], some "gospel", "Mt 5, 1-12", []⟩
    "first_reading" "gospel" "psalm"
  exact ⟨(h.1 (by decide) (by decide) rfl (by decide) rfl).trans (by decide),
    (h.2.1 rfl (by decide) rfl).trans (by decide)⟩

/-- C3: when a header line for `t` at index `i` is immediately followed by an
in-range line containing a digit, that next line's stripped text becomes the
reference of the freshly opened section, and (being equal to the stored
reference) is not buffered into the section's body text when the loop visits
it; when the following line has no digit (or does not exist), the reference is
the empty string and the following line is buffered as ordinary body text. -/
theorem C3_reference_lookahead (lines : List String) (i : Nat) (st : StState)
    (t : String)
    (hne : lineAt lines i ≠ "")
    (hdet : detect (lineAt lines i) = some t) :
    ((i + 1 < lines.length ∧ hasDigit (lineAt lines (i + 1)) = true) →
      (stepLine lines st i).currentSection = some t ∧
      (stepLine lines st i).currentRef = lineAt lines (i + 1) ∧
      (stepLine lines st i).buffer = [] ∧
      (detect (lineAt lines (i + 1)) = none →
        stepLine lines (stepLine lines st i) (i + 1) = stepLine lines st i)) ∧
    ((¬ (i + 1 < lines.length ∧ hasDigit (lineAt lines (i + 1)) = true)) →
      (stepLine lines st i).currentRef = "" ∧
      (detect (lineAt lines (i + 1)) = none → lineAt lines (i + 1) ≠ "" →
        (stepLine lines (stepLine lines st i) (i + 1)).buffer =
          [lineAt lines (i + 1)])) := by
  have hcs2 : (stepLine lines st i).currentSection = some t := by
    simp [stepLine, hne, hdet]
  have hb2 : (stepLine lines st i).buffer = [] := by
    simp [stepLine, hne, hdet]
  constructor
  · rintro ⟨hl, hd⟩
    have href : (stepLine lines st i).currentRef = lineAt lines (i + 1) := by
      simp [stepLine, hne, hdet, hl, hd]
    refine ⟨hcs2, href, hb2, ?_⟩
    intro hnone
    have hne2 : lineAt lines (i + 1) ≠ "" := hasDigit_ne_empty hd
    generalize hgen : stepLine lines st i = st2 at hcs2 href ⊢
    unfold stepLine
    dsimp only
    rw [if_neg hne2, hnone, hcs2]
    dsimp only
    rw [href, if_pos rfl]
  · intro hnd
    have hr0 : (stepLine lines st i).currentRef = "" := by
      by_cases hl : i + 1 < lines.length
      · have hd : ¬ hasDigit (lineAt lines (i + 1)) = true := fun hd => hnd ⟨hl, hd⟩
        simp [stepLine, hne, hdet, hl, hd]
      · simp [stepLine, hne, hdet, hl]
    refine ⟨hr0, ?_⟩
    intro hnone hne2
    generalize hgen : stepLine lines st i = st2 at hcs2 hr0 hb2 ⊢
    unfold stepLine
    dsimp only
    rw [if_neg hne2, hnone, hcs2]
    dsimp only
    rw [hr0, if_neg hne2, hb2]
    simp

/-- Witness for C3: after the header "Primera Lectura", the digit-bearing
next line "Is 25, 6-10" becomes the reference and is then skipped, not
buffered. -/
theorem C3_witness :
    (stepLine ["Primera Lectura", "Is 25, 6-10"] initState 0).currentRef =
      "Is 25, 6-10" ∧
    stepLine ["Primera Lectura", "Is 25, 6-10"]
        (stepLine ["Primera Lectura", "Is 25, 6-10"] initState 0) 1 =
      stepLine ["Primera Lectura", "Is 25, 6-10"] initState 0 := by
  have h := (C3_reference_lookahead ["Primera Lectura", "Is 25, 6-10"] 0
    initState "first_reading" (by decide) (by decide)).1 ⟨by decide, by decide⟩
  exact ⟨h.2.1.trans (by decide), h.2.2.2 (by decide)⟩

/-- C10: while a section is open, a non-header line is excluded from the body
buffer precisely when its stripped text equals the stored reference string —
by exact string equality, not by position — so a recurrence of the reference
text later in the same section is also dropped, while any other non-empty
non-header line is appended to the buffer. -/
theorem C10_ref_exclusion (lines : List String) (st : StState) (i : Nat)
    (hsec : st.currentSection.isSome)
    (hdet : detect (lineAt lines i) = none) :
    (lineAt lines i = st.currentRef → stepLine lines st i = st) ∧
    (lineAt lines i ≠ st.currentRef → lineAt lines i ≠ "" →
      (stepLine lines st i).buffer = st.buffer ++ [lineAt lines i] ∧
      (stepLine lines st i).readingsFound = st.readingsFound ∧
      (stepLine lines st i).currentSection = st.currentSection ∧
      (stepLine lines st i).currentRef = st.currentRef) := by
  obtain ⟨cs, hcs⟩ := Option.isSome_iff_exists.mp hsec
  constructor
  · intro heq
    by_cases hne : lineAt lines i = ""
    · simp [stepLine, hne]
    · unfold stepLine
      dsimp only
      rw [if_neg hne, hdet, hcs]
      dsimp only
      rw [if_pos heq]
  · intro hne hne2
    simp [stepLine, hne2, hdet, hcs, hne]

/-- Witness for C10: a line equal to the current reference is dropped even
when it is not the line right after the header, while a different line is
buffered. -/
theorem C10_witness :
    stepLine ["Sal 22"] ⟨["ya hay cuerpo"], some "psalm", "Sal 22", []⟩ 0 =
      ⟨["ya hay cuerpo"], some "psalm", "Sal 22", []⟩ ∧
    (stepLine ["texto normal"] ⟨[], some "psalm", "Sal 22", []⟩ 0).buffer =
      ["texto normal"] := by
  constructor
  · exact (C10_ref_exclusion ["Sal 22"]
      ⟨["ya hay cuerpo"], some "psalm", "Sal 22", []⟩ 0 rfl (by decide)).1 (by decide)
  · have h := (C10_ref_exclusion ["texto normal"]
      ⟨[], some "psalm", "Sal 22", []⟩ 0 rfl (by decide)).2 (by decide) (by decide)
    exact h.1.trans (by decide)

/-! First-seen-wins machinery -/

theorem closeRecord_lookup_pres (st : StState) (cs' titleStr cs : String)
    (hfound : (lookupR cs st.readingsFound).isSome) :
    lookupR cs (closeRecord st cs' titleStr) = lookupR cs st.readingsFound := by
  unfold closeRecord
  split
  · rfl
  · split
    · rfl
    · exact lookupR_append_left _ hfound

theorem closeRecord_drop (st : StState) (cs titleStr : String)
    (hfound : (lookupR cs st.readingsFound).isSome) :
    closeRecord st cs titleStr = st.readingsFound := by
  unfold closeRecord
  split
  · rfl
  · rfl

theorem stepLine_lookup_pres (lines : List String) (st : StState) (i : Nat)
    (cs : String) (hfound : (lookupR cs st.readingsFound).isSome) :
    lookupR cs (stepLine lines st i).readingsFound = lookupR cs st.readingsFound := by
  unfold stepLine
  dsimp only
  split
  · rfl
  · split
    · dsimp only
      split
      · exact closeRecord_lookup_pres _ _ _ _ hfound
      · rfl
    · split
      · split
        · rfl
        · rfl
      · rfl

theorem stepLine_drop (lines : List String) (st : StState) (i : Nat)
    (cs : String) (hsec : st.currentSection = some cs)
    (hfound : (lookupR cs st.readingsFound).isSome) :
    (stepLine lines st i).readingsFound = st.readingsFound := by
  unfold stepLine
  dsimp only
  split
  · rfl
  · split
    · dsimp only
      split
      · rename_i cs' hcs'
        rw [hsec] at hcs'
        obtain rfl := (Option.some.inj hcs').symm
        exact closeRecord_drop _ _ _ hfound
      · rfl
    · split
      · split
        · rfl
        · rfl
      · rfl

theorem flushEnd_lookup_pres (st : StState) (cs : String)
    (hfound : (lookupR cs st.readingsFound).isSome) :
    lookupR cs (flushEnd st).readingsFound = lookupR cs st.readingsFound := by
  unfold flushEnd
  split
  · dsimp only
    exact closeRecord_lookup_pres _ _ _ _ hfound
  · rfl

theorem flushEnd_drop (st : StState) (cs : String)
    (hsec : st.currentSection = some cs)
    (hfound : (lookupR cs st.readingsFound).isSome) :
    (flushEnd st).readingsFound = st.readingsFound := by
  unfold flushEnd
  rw [hsec]
  dsimp only
  exact closeRecord_drop _ _ _ hfound

theorem two_occ_family (a b : String) (hsa : pyStrip a = a) (hsb : pyStrip b = b)
    (hna : a ≠ "") (hnb : b ≠ "") (hda : detect a = none) (hdb : detect b = none)
    (hga : hasDigit a = false) (hgb : hasDigit b = false) :
    get_liturgical_readings ["Primera Lectura", a, "Primera Lectura", b] =
      [⟨"first_reading", "Primera Lectura", "", a⟩] := by
  have hps : pyStrip "Primera Lectura" = "Primera Lectura" := by decide
  have hdp : detect "Primera Lectura" = some "first_reading" := by decide
  have hnp : ("Primera Lectura" : String) ≠ "" := by decide
  have s0 : stepLine ["Primera Lectura", a, "Primera Lectura", b] initState 0 =
      ⟨[], some "first_reading", "", []⟩ := by
    simp [stepLine, lineAt, initState, hps, hdp, hnp, hsa, hga]
  have s1 : stepLine ["Primera Lectura", a, "Primera Lectura", b]
      ⟨[], some "first_reading", "", []⟩ 1 =
      ⟨[a], some "first_reading", "", []⟩ := by
    simp [stepLine, lineAt, hsa, hda, hna]
  have s2 : stepLine ["Primera Lectura", a, "Primera Lectura", b]
      ⟨[a], some "first_reading", "", []⟩ 2 =
      ⟨[], some "first_reading", "",
        [("first_reading", ⟨"first_reading", "Primera Lectura", "", a⟩)]⟩ := by
    simp [stepLine, lineAt, closeRecord, joinSpace, lookupR, hps, hdp, hnp, hsb, hgb, hsa, hna]
  have s3 : stepLine ["Primera Lectura", a, "Primera Lectura", b]
      ⟨[], some "first_reading", "",
        [("first_reading", ⟨"first_reading", "Primera Lectura", "", a⟩)]⟩ 3 =
      ⟨[b], some "first_reading", "",
        [("first_reading", ⟨"first_reading", "Primera Lectura", "", a⟩)]⟩ := by
    simp [stepLine, lineAt, hsb, hdb, hnb]
  have hc : coreState ["Primera Lectura", a, "Primera Lectura", b] =
      ⟨[b], some "first_reading", "",
        [("first_reading", ⟨"first_reading", "Primera Lectura", "", a⟩)]⟩ := by
    unfold coreState
    rw [show List.range (["Primera Lectura", a, "Primera Lectura", b] : List String).length
        = [0, 1, 2, 3] from rfl]
    simp only [List.foldl_cons, List.foldl_nil]
    rw [s0, s1, s2, s3]
  unfold get_liturgical_readings
  rw [hc]
  simp [flushEnd, closeRecord, lookupR, orderedKeys, hnb]


/-- C4: first-seen-wins.  Once a section type is recorded in
`readings_found`, its entry is never changed by any later loop step or by the
end-of-input flush; and when the open section's type is already recorded, its
close leaves `readings_found` entirely unchanged — the later occurrence is
silently dropped.  Consequently, for an input with two occurrences of the same
header, only the first occurrence's body (the lines seen before the second
header) appears in the output, as the parametric two-occurrence input family
shows. -/
theorem C4_first_seen_wins (lines : List String) (st : StState) (i : Nat)
    (cs : String) (hfound : (lookupR cs st.readingsFound).isSome) :
    lookupR cs (stepLine lines st i).readingsFound = lookupR cs st.readingsFound ∧
    lookupR cs (flushEnd st).readingsFound = lookupR cs st.readingsFound ∧
    (st.currentSection = some cs →
      (stepLine lines st i).readingsFound = st.readingsFound ∧
      (flushEnd st).readingsFound = st.readingsFound) ∧
    (∀ a b : String, pyStrip a = a → pyStrip b = b → a ≠ "" → b ≠ "" →
      detect a = none → detect b = none →
      hasDigit a = false → hasDigit b = false →
      get_liturgical_readings ["Primera Lectura", a, "Primera Lectura", b] =
        [⟨"first_reading", "Primera Lectura", "", a⟩]) :=
  ⟨stepLine_lookup_pres lines st i cs hfound,
   flushEnd_lookup_pres st cs hfound,
   fun hsec => ⟨stepLine_drop lines st i cs hsec hfound,
     flushEnd_drop st cs hsec hfound⟩,
   fun a b hsa hsb hna hnb hda hdb hga hgb =>
     two_occ_family a b hsa hsb hna hnb hda hdb hga hgb⟩

/-- Witness for C4: a recorded psalm entry survives a later close untouched,
and a concrete two-occurrence input keeps only the first occurrence's body. -/
theorem C4_witness :
    (stepLine ["Evangelio"]
        ⟨["later text"], some "psalm", "", [("psalm", ⟨"psalm", "T", "R", "X"⟩)]⟩
        0).readingsFound =
      [("psalm", ⟨"psalm", "T", "R", "X"⟩)] ∧
    get_liturgical_readings
        ["Primera Lectura", "cuerpo uno", "Primera Lectura", "cuerpo dos"] =
      [⟨"first_reading", "Primera Lectura", "", "cuerpo uno"⟩] := by
  have h := C4_first_seen_wins ["Evangelio"]
    ⟨["later text"], some "psalm", "", [("psalm", ⟨"psalm", "T", "R", "X"⟩)]⟩
    0 "psalm" (by decide)
  exact ⟨(h.2.2.1 rfl).1, h.2.2.2 "cuerpo uno" "cuerpo dos" (by decide) (by decide)
    (by decide) (by decide) (by decide) (by decide) (by decide) (by decide)⟩

/-! Classifier claims -/

/-- List.find? returns the element at the first index whose predicate holds. -/
theorem find?_eq_of_getD {α : Type} (p : α → Bool) (d : α) :
    ∀ (l : List α) (j : Nat), j < l.length → p (l.getD j d) = true →
      (∀ j', j' < j → p (l.getD j' d) = false) →
      l.find? p = some (l.getD j d) := by
  intro l
  induction l with
  | nil => intro j hj; exact absurd hj (Nat.not_lt_zero j)
  | cons a l ih =>
    intro j hj hp hprev
    cases j with
    | zero =>
      simp only [List.getD_cons_zero] at hp ⊢
      simp [List.find?_cons, hp]
    | succ j =>
      have ha : p a = false := by
        have := hprev 0 (Nat.succ_pos j)
        simpa using this
      simp only [List.getD_cons_succ] at hp ⊢
      rw [List.find?_cons, ha]
      exact ih j (Nat.lt_of_succ_lt_succ hj) hp
        fun j' hj' => by simpa using hprev (j' + 1) (Nat.succ_lt_succ hj')

/-- C6: the line classifier is a pure function of the line and the fixed
keyword table: the table is exactly the four phrases in definition order; a
line matches nothing iff it classifies as `none` (no error); the first
keyword in table order whose lower-cased phrase occurs as a substring of the
lower-cased line wins; and a line containing two keyword phrases is
classified by table order, not textual position ("Evangelio y Primera
Lectura" classifies as first_reading). -/
theorem C6_classifier (line : String) :
    keywords = [("Primera Lectura", "first_reading"),
      ("Salmo Responsorial", "psalm"),
      ("Segunda Lectura", "second_reading"),
      ("Evangelio", "gospel")] ∧
    (detect line = none ↔
      ∀ kv ∈ keywords, containsSub (pyLower kv.1) (pyLower line) = false) ∧
    (∀ j, j < keywords.length →
      containsSub (pyLower ((keywords.getD j ("", "")).1)) (pyLower line) = true →
      (∀ j', j' < j →
        containsSub (pyLower ((keywords.getD j' ("", "")).1)) (pyLower line) = false) →
      detect line = some ((keywords.getD j ("", "")).2)) ∧
    detect "Evangelio y Primera Lectura" = some "first_reading" := by
  refine ⟨rfl, ?_, ?_, by decide⟩
  · unfold detect
    rw [Option.map_eq_none']
    rw [List.find?_eq_none]
    constructor
    · intro h kv hkv
      have := h kv hkv
      simpa using this
    · intro h kv hkv
      simp [h kv hkv]
  · intro j hj hp hprev
    unfold detect
    rw [find?_eq_of_getD _ _ _ j hj hp hprev]
    rfl

/-- Witness for C6: the classifier fires on a longer line containing
"Evangelio" (via the first-wins rule at index 3) and stays silent on a
keyword-free line. -/
theorem C6_witness :
    detect "El Santo Evangelio del dia" = some "gospel" ∧
    detect "texto sin encabezado" = none := by
  constructor
  · exact (C6_classifier "El Santo Evangelio del dia").2.2.1 3 (by decide)
      (by decide) (fun j' hj' => by interval_cases j' <;> decide)
  · exact (C6_classifier "texto sin encabezado").2.1.mpr (by decide)

/-! Non-empty text invariant -/

theorem head?_dropWhile_false {α : Type} (p : α → Bool) :
    ∀ (l : List α) (c : α), (l.dropWhile p).head? = some c → p c = false := by
  intro l
  induction l with
  | nil => intro c h; simp at h
  | cons a l ih =>
    intro c h
    rw [List.dropWhile_cons] at h
    by_cases hp : p a = true
    · rw [if_pos hp] at h
      exact ih c h
    · rw [if_neg hp] at h
      obtain rfl : a = c := by simpa using h
      simpa using hp

theorem stripChars_all_ws {l : List Char} (h : stripChars l = []) :
    ∀ c ∈ l, c.isWhitespace = true := by
  unfold stripChars at h
  rw [List.reverse_eq_nil_iff] at h
  have h2 := List.dropWhile_eq_nil_iff.mp h
  have h3 : ∀ c ∈ l.dropWhile Char.isWhitespace, c.isWhitespace = true :=
    fun c hc => h2 c (List.mem_reverse.mpr hc)
  intro c hc
  rw [← List.takeWhile_append_dropWhile Char.isWhitespace l] at hc
  rcases List.mem_append.mp hc with h4 | h4
  · exact List.mem_takeWhile_imp h4
  · exact h3 c h4

theorem stripChars_witness {l : List Char} (h : stripChars l ≠ []) :
    ∃ c ∈ stripChars l, c.isWhitespace = false := by
  unfold stripChars at h ⊢
  cases hcase : (l.dropWhile Char.isWhitespace).reverse.dropWhile Char.isWhitespace with
  | nil => rw [hcase] at h; exact absurd rfl h
  | cons c rest =>
    refine ⟨c, ?_, ?_⟩
    · exact List.mem_reverse.mpr (List.mem_cons_self c rest)
    · apply head?_dropWhile_false Char.isWhitespace ((l.dropWhile Char.isWhitespace).reverse)
      rw [hcase]
      rfl

theorem string_ne_empty_of_data {s : String} (h : s.data ≠ []) : s ≠ "" := by
  intro he
  subst he
  exact h rfl

theorem mem_joinSpace_head {b : String} {bs : List String} {c : Char}
    (hc : c ∈ b.data) : c ∈ (joinSpace (b :: bs)).data := by
  cases bs with
  | nil => exact hc
  | cons x xs =>
    show c ∈ ((b ++ " ") ++ joinSpace (x :: xs)).data
    have hdata : ((b ++ " ") ++ joinSpace (x :: xs)).data
        = (b.data ++ (" " : String).data) ++ (joinSpace (x :: xs)).data := rfl
    rw [hdata]
    exact List.mem_append.mpr (Or.inl (List.mem_append.mpr (Or.inl hc)))

/-- Every buffered line contains a non-whitespace character. -/
def BufOk (st : StState) : Prop :=
  ∀ s ∈ st.buffer, ∃ c ∈ s.data, c.isWhitespace = false

/-- Every recorded reading has a non-empty text. -/
def TextOk (m : List (String × Reading)) : Prop := ∀ p ∈ m, p.2.text ≠ ""

theorem pyStrip_join_ne {st : StState} (hbuf : BufOk st) (hne : st.buffer ≠ []) :
    pyStrip (joinSpace st.buffer) ≠ "" := by
  obtain ⟨b, bs, hb⟩ : ∃ b bs, st.buffer = b :: bs := by
    cases hcase : st.buffer with
    | nil => exact absurd hcase hne
    | cons b bs => exact ⟨b, bs, rfl⟩
  obtain ⟨c, hc, hw⟩ := hbuf b (by rw [hb]; exact List.mem_cons_self b bs)
  have hcj : c ∈ (joinSpace st.buffer).data := by
    rw [hb]
    exact mem_joinSpace_head hc
  apply string_ne_empty_of_data
  intro hnil
  have := stripChars_all_ws hnil c hcj
  rw [hw] at this
  exact Bool.false_ne_true this

theorem textOk_closeRecord {st : StState} (cs t : String)
    (hty : TextOk st.readingsFound) (hbuf : BufOk st) :
    TextOk (closeRecord st cs t) := by
  unfold closeRecord
  split
  · exact hty
  · split
    · exact hty
    · rename_i h1 h2
      intro p hp
      rcases List.mem_append.mp hp with hp1 | hp2
      · exact hty p hp1
      · simp only [List.mem_singleton] at hp2
        subst hp2
        exact pyStrip_join_ne hbuf h1

theorem bufTextOk_stepLine (lines : List String) (st : StState) (i : Nat)
    (h : BufOk st ∧ TextOk st.readingsFound) :
    BufOk (stepLine lines st i) ∧ TextOk (stepLine lines st i).readingsFound := by
  obtain ⟨hbuf, hty⟩ := h
  unfold stepLine
  dsimp only
  split
  · exact ⟨hbuf, hty⟩
  · rename_i hne
    split
    · constructor
      · intro s hs
        simp at hs
      · dsimp only
        split
        · exact textOk_closeRecord _ _ hty hbuf
        · exact hty
    · split
      · split
        · exact ⟨hbuf, hty⟩
        · constructor
          · intro s hs
            rcases List.mem_append.mp hs with h1 | h2
            · exact hbuf s h1
            · simp only [List.mem_singleton] at h2
              subst h2
              have hd : stripChars (lines.getD i "").data ≠ [] := by
                intro hnil
                exact hne (String.ext hnil)
              exact stripChars_witness hd
          · exact hty
      · exact ⟨hbuf, hty⟩

theorem textOk_flushEnd (st : StState) (hbuf : BufOk st)
    (hty : TextOk st.readingsFound) : TextOk (flushEnd st).readingsFound := by
  unfold flushEnd
  split
  · dsimp only
    exact textOk_closeRecord _ _ hty hbuf
  · exact hty

theorem lookupR_mem {k : String} : ∀ {m : List (String × Reading)} {r : Reading},
    lookupR k m = some r → ∃ p ∈ m, p.2 = r := by
  intro m
  induction m with
  | nil => intro r h; simp [lookupR] at h
  | cons p rest ih =>
    intro r h
    obtain ⟨k', r'⟩ := p
    by_cases hk : k' = k
    · rw [lookupR, if_pos hk] at h
      obtain rfl := Option.some.inj h
      exact ⟨(k', r'), List.mem_cons_self _ _, rfl⟩
    · rw [lookupR, if_neg hk] at h
      obtain ⟨q, hq, hq2⟩ := ih h
      exact ⟨q, List.mem_cons_of_mem _ hq, hq2⟩

/-- C9: every reading in the output has a non-empty `text`: sections are
recorded only when their buffer is non-empty, and buffered lines always
contain a non-whitespace character, so the space-joined, stripped body text
is never empty. -/
theorem C9_nonempty_text (lines : List String) :
    ∀ r ∈ get_liturgical_readings lines, r.text ≠ "" := by
  have hinv : BufOk (coreState lines) ∧ TextOk (coreState lines).readingsFound := by
    unfold coreState
    refine foldl_inv_mem (P := fun st => BufOk st ∧ TextOk st.readingsFound)
      lines _ initState ⟨?_, ?_⟩ fun st i _ h => bufTextOk_stepLine lines st i h
    · intro s hs
      simp [initState] at hs
    · intro p hp
      simp [initState] at hp
  have hty : TextOk (flushEnd (coreState lines)).readingsFound :=
    textOk_flushEnd _ hinv.1 hinv.2
  intro r hr
  unfold get_liturgical_readings at hr
  obtain ⟨k, hk, hlook⟩ := List.mem_filterMap.mp hr
  obtain ⟨p, hp, hpr⟩ := lookupR_mem hlook
  rw [← hpr]
  exact hty p hp

/-- Witness for C9 at a concrete input whose single output reading has
non-empty text. -/
theorem C9_witness : (⟨"gospel", "Gospel", "", "texto"⟩ : Reading).text ≠ "" :=
  C9_nonempty_text ["Evangelio", "texto"] ⟨"gospel", "Gospel", "", "texto"⟩ (by decide)

end Evangelizacion
